import Mathlib

/-!
The fixed-size bitset and the 3D source transform of synthizer.

A shallow embedding of `include/synthizer/bitset.hpp` and of
`src/sources/source3d.cpp`, followed by the properties established about them.

Conventions of the embedding.

* `unsigned char` and `unsigned int` values are natural numbers; a store into an
  `unsigned char` cell is followed by `% 256`, and the bitwise complement of a
  32-bit operand `v` is `2^32 - 1 - v`.
* The loop counters and the population count stay far below `2^32` for every
  array that can be instantiated, so they are plain natural numbers.
* `std::array<unsigned char, SIZE_IN_BYTES>` is a list of bytes whose length and
  byte range are carried by the `Bitset` structure.
* The source text of `bitset.hpp` spells `SIZE` as `SYZE`, `byte` as `buyte` and
  writes `:` for the second `;` of both `for` headers; the embedding reads them
  as the identifiers and separators they stand for.
-/

namespace synthizer

/-! ## bitset.hpp -/

/-- Modelled from the spec: `nextMultipleOf` lives in `synthizer/types.hpp`, which is
not part of the sources at hand. The spec fixes the storage at `ceil(N/8)` bytes, so
`nextMultipleOf value multiple` is the least multiple of `multiple` that is at least
`value`. -/
def nextMultipleOf (value multiple : Nat) : Nat :=
  ((value + multiple - 1) / multiple) * multiple

/-- The constant `SIZE_IN_BYTES = nextMultipleOf(BITS, 8)/8` of `Bitset<BITS>`. -/
def SIZE_IN_BYTES (BITS : Nat) : Nat := nextMultipleOf BITS 8 / 8

/-- The class `Bitset<BITS>`: its only member is `data`, an array of
`SIZE_IN_BYTES` cells of type `unsigned char`. -/
structure Bitset (BITS : Nat) where
  data : List Nat
  size_eq : data.length = SIZE_IN_BYTES BITS
  byte_lt : ∀ d ∈ data, d < 256

/-- The constant `SIZE = BITS` of `Bitset<BITS>`. -/
def Bitset.SIZE {BITS : Nat} (_b : Bitset BITS) : Nat := BITS

/-- Bitwise complement `~v` of a 32-bit operand. -/
def compl32 (v : Nat) : Nat := 2 ^ 32 - 1 - v % 2 ^ 32

/-- Number of trailing zero bits, scanning at most `fuel` positions. -/
def ctzLoop : Nat → Nat → Nat
  | 0, _ => 0
  | fuel + 1, v => if v % 2 = 1 then 0 else ctzLoop fuel (v / 2) + 1

/-- The compiler builtin `__builtin_ctz` on a 32-bit operand (its result on `0`
is undefined in C; the scan simply stops after 32 positions here). -/
def builtin_ctz (v : Nat) : Nat := ctzLoop 32 v

/-- Number of one bits among the lowest `fuel` positions. -/
def popcountLoop : Nat → Nat → Nat
  | 0, _ => 0
  | fuel + 1, v => v % 2 + popcountLoop fuel (v / 2)

/-- The compiler builtin `__builtin_popcount` on a 32-bit operand. -/
def builtin_popcount (v : Nat) : Nat := popcountLoop 32 v

/-- The method `bool get(unsigned int index)`. The assertion `index < BITS` is the
type of `index`.
```
unsigned int byte = this->data[index/8];
unsigned int bit = index%8;
return (byte & (1 << bit)) == 1;
```
-/
def Bitset.get {BITS : Nat} (b : Bitset BITS) (index : Fin BITS) : Bool :=
  let byte : Nat := b.data.get ⟨index.val / 8, by
    have h := index.isLt
    rw [b.size_eq]
    unfold SIZE_IN_BYTES nextMultipleOf
    omega⟩
  let bit : Nat := index.val % 8
  (byte &&& (1 <<< bit)) == 1

/-- The method `void set(unsigned int index, bool value)`. The assertion
`index < SIZE` is the type of `index`.
```
unsigned int byte = index/8;
unsigned int bit = index%8;
unsigned int mask = (1 << bit);
this->data[byte] = value ? this->data[byte] | mask : this->data[byte] & ~mask;
```
-/
def Bitset.set {BITS : Nat} (b : Bitset BITS) (index : Fin BITS) (value : Bool) :
    Bitset BITS :=
  let byte : Nat := index.val / 8
  let bit : Nat := index.val % 8
  let mask : Nat := 1 <<< bit
  let old : Nat := b.data.get ⟨byte, by
    have h := index.isLt
    rw [b.size_eq]
    unfold SIZE_IN_BYTES nextMultipleOf
    omega⟩
  let stored : Nat := (if value then old ||| mask else old &&& compl32 mask) % 256
  { data := b.data.set byte stored
    size_eq := by rw [List.length_set]; exact b.size_eq
    byte_lt := by
      intro d hd
      rcases List.mem_or_eq_of_mem_set hd with hm | he
      · exact b.byte_lt d hm
      · rw [he]
        exact Nat.mod_lt _ (by decide) }

/-- The loop of `getBitCount`, over the cells not yet visited:
`ret += __builtin_popcount(this->data[i])`. -/
def getBitCountLoop : List Nat → Nat → Nat
  | [], ret => ret
  | d :: rest, ret => getBitCountLoop rest (ret + builtin_popcount d)

/-- The method `unsigned int getBitCount()`. -/
def Bitset.getBitCount {BITS : Nat} (b : Bitset BITS) : Nat :=
  getBitCountLoop b.data 0

/-- The loop of `getFirstUnsetBit`, over the cells not yet visited; `size` is the
value returned when the loop runs to its end.
```
unsigned char d = data[i];
if (d == 255) continue;
return __builtin_ctz(~d);
```
-/
def getFirstUnsetBitLoop (size : Nat) : List Nat → Nat
  | [] => size
  | d :: rest => if d = 255 then getFirstUnsetBitLoop size rest else builtin_ctz (compl32 d)

/-- The method `unsigned int getFirstUnsetBit()`. -/
def Bitset.getFirstUnsetBit {BITS : Nat} (b : Bitset BITS) : Nat :=
  getFirstUnsetBitLoop BITS b.data

/-- A bitset with every cell zero: all bits clear. -/
def Bitset.empty (BITS : Nat) : Bitset BITS :=
  { data := List.replicate (SIZE_IN_BYTES BITS) 0
    size_eq := List.length_replicate _ _
    byte_lt := by
      intro d hd
      rw [List.eq_of_mem_replicate hd]
      decide }

/-- The bit at global position `j` of the storage: bit `j % 8` of cell `j / 8`. -/
def Bitset.bitAt {BITS : Nat} (b : Bitset BITS) (j : Nat) : Bool :=
  (b.data.getD (j / 8) 0).testBit (j % 8)

/-- One allocation, the caller's sequence on the bitset (it is not a method of the
class): `index = getFirstUnsetBit()`; an index below `SIZE` is marked with
`set(index, true)` and returned, any other value is the exhaustion signal and
nothing is changed. -/
def Bitset.allocate {BITS : Nat} (b : Bitset BITS) : Option Nat × Bitset BITS :=
  if h : b.getFirstUnsetBit < BITS then
    (some b.getFirstUnsetBit, b.set ⟨b.getFirstUnsetBit, h⟩ true)
  else
    (none, b)

/-- Freeing a slot, the caller's call `set(index, false)`. -/
def Bitset.free {BITS : Nat} (b : Bitset BITS) (index : Fin BITS) : Bitset BITS :=
  b.set index false

/-- Repeats `allocate` `n` times, collecting what each call returned. -/
def Bitset.allocateMany {BITS : Nat} : Nat → Bitset BITS → List (Option Nat) × Bitset BITS
  | 0, b => ([], b)
  | n + 1, b =>
    let r := b.allocate
    let rs := Bitset.allocateMany n r.2
    (r.1 :: rs.1, rs.2)

/-! ## source3d.cpp

The transform is stated over the real numbers: a `double` is a real number, so
rounding, infinities and NaN are outside the model. -/

noncomputable section

/-- The type `Vec3d`: a vector of three `double` components. -/
@[ext]
structure Vec3d where
  x : ℝ
  y : ℝ
  z : ℝ

/-- Modelled from the spec: `dotProduct` lives in `synthizer/math.hpp`, which is not
part of the sources at hand; the spec's `dot(a, b)`. -/
def dotProduct (a b : Vec3d) : ℝ := a.x * b.x + a.y * b.y + a.z * b.z

/-- Modelled from the spec: `crossProduct` lives in `synthizer/math.hpp`, which is
not part of the sources at hand; the spec's `cross(a, b)`. -/
def crossProduct (a b : Vec3d) : Vec3d :=
  { x := a.y * b.z - a.z * b.y
    y := a.z * b.x - a.x * b.z
    z := a.x * b.y - a.y * b.x }

/-- Modelled from the spec: `magnitude` lives in `synthizer/math.hpp`, which is not
part of the sources at hand; the spec's `|v|`, the Euclidean norm. -/
def magnitude (a : Vec3d) : ℝ := Real.sqrt (dotProduct a a)

/-- Modelled from the spec: `normalize` lives in `synthizer/math.hpp`, which is not
part of the sources at hand; the spec's `normalize(v)`, each component divided by
the magnitude. -/
def normalize (a : Vec3d) : Vec3d :=
  { x := a.x / magnitude a
    y := a.y / magnitude a
    z := a.z / magnitude a }

/-- Modelled from the spec: `clamp` lives in `synthizer/math.hpp`, which is not part
of the sources at hand; the spec's clamping of a value to `[lo, hi]`, both ends
included. -/
def clamp (v lo hi : ℝ) : ℝ := if v < lo then lo else if hi < v then hi else v

/-- Modelled from the spec: the constant `PI` lives in `synthizer/math.hpp`, which is
not part of the sources at hand; it converts radians to degrees as `180 / PI`. -/
def PI : ℝ := Real.pi

/-- The library function `std::atan2(y, x)` on real arguments: the angle in
`(-π, π]` of the point `(x, y)`, and `0` at the origin. -/
def atan2 (y x : ℝ) : ℝ := Complex.arg ⟨x, y⟩

/-- Rounding towards zero, as `std::fmod` uses it for the quotient. -/
def truncate (r : ℝ) : ℤ := if 0 ≤ r then ⌊r⌋ else ⌈r⌉

/-- The library function `std::fmod(x, y)` on real arguments:
`x - y * trunc(x / y)`. -/
def fmod (x y : ℝ) : ℝ := x - y * (truncate (x / y) : ℝ)

/-- Two vectors are parallel when one is a scalar multiple of the other. -/
def Parallel (a b : Vec3d) : Prop :=
  ∃ k : ℝ, (b.x = k * a.x ∧ b.y = k * a.y ∧ b.z = k * a.z) ∨
    (a.x = k * b.x ∧ a.y = k * b.y ∧ a.z = k * b.z)

/-- The `at` vector of an orientation array: components 0, 1, 2. -/
def orientationAt (orientation : Fin 6 → ℝ) : Vec3d :=
  { x := orientation 0, y := orientation 1, z := orientation 2 }

/-- The `up` vector of an orientation array: components 3, 4, 5. -/
def orientationUp (orientation : Fin 6 → ℝ) : Vec3d :=
  { x := orientation 3, y := orientation 4, z := orientation 5 }

/-- An orientation whose `at` and `up` vectors are non-zero and not parallel. -/
def NonDegenerate (orientation : Fin 6 → ℝ) : Prop :=
  orientationAt orientation ≠ ⟨0, 0, 0⟩ ∧ orientationUp orientation ≠ ⟨0, 0, 0⟩ ∧
    ¬ Parallel (orientationAt orientation) (orientationUp orientation)

/-- Modelled from the spec: `throwIfParallel` lives in `synthizer/math.hpp`, which is
not part of the sources at hand. The spec rejects an orientation whose `at` and `up`
are parallel, "cross product magnitude below a small epsilon"; the epsilon is not
given and is the parameter `eps`. -/
def throwIfParallel (eps : ℝ) (a b : Vec3d) : Except String Unit :=
  if magnitude (crossProduct a b) < eps then
    Except.error "Vectors must not be parallel"
  else
    Except.ok ()

/-- The distance parameters of a source (`spatialization_math.hpp`, not part of the
sources at hand): the field `distance`, which `run` writes, and every other field,
kept as one value of the type `P`. -/
structure DistanceParams (P : Type) where
  distance : ℝ
  others : P

/-- The listener side of the `Context`: what `getPosition` and `getOrientation`
return. -/
structure Context where
  position : Fin 3 → ℝ
  orientation : Fin 6 → ℝ

/-- The state of a `Source3D`: its own members `position` and `orientation`, and the
inherited state that `run` writes through `setAzimuth`, `setElevation`,
`setGain3D` and the reference returned by `getDistanceParams`. -/
structure Source3D (P : Type) where
  position : Fin 3 → ℝ
  orientation : Fin 6 → ℝ
  azimuth : ℝ
  elevation : ℝ
  gain3D : ℝ
  distanceParams : DistanceParams P

/-- The method `Context::getPosition`. -/
def Context.getPosition (ctx : Context) : Fin 3 → ℝ := ctx.position

/-- The method `Context::getOrientation`. -/
def Context.getOrientation (ctx : Context) : Fin 6 → ℝ := ctx.orientation

/-- The method `Source3D::getPosition`. -/
def Source3D.getPosition {P : Type} (s : Source3D P) : Fin 3 → ℝ := s.position

/-- The method `Source3D::setPosition`. -/
def Source3D.setPosition {P : Type} (s : Source3D P) (position : Fin 3 → ℝ) :
    Source3D P :=
  { s with position := position }

/-- The method `Source3D::getOrientation`. -/
def Source3D.getOrientation {P : Type} (s : Source3D P) : Fin 6 → ℝ := s.orientation

/-- The method `Source3D::setOrientation`. The result pairs what the caller sees
(`error` when `throwIfParallel` throws) with the state of the source afterwards: an
exception leaves the method before the assignment.
```
Vec3d at = { orientation[0], orientation[1], orientation[2] };
Vec3d up = { orientation[3], orientation[4], orientation[5] };
throwIfParallel(at, up);
this->orientation = orientation;
```
-/
def Source3D.setOrientation {P : Type} (eps : ℝ) (s : Source3D P)
    (orientation : Fin 6 → ℝ) : Except String Unit × Source3D P :=
  let «at» : Vec3d := { x := orientation 0, y := orientation 1, z := orientation 2 }
  let up : Vec3d := { x := orientation 3, y := orientation 4, z := orientation 5 }
  match throwIfParallel eps «at» up with
  | Except.error e => (Except.error e, s)
  | Except.ok _ => (Except.ok (), { s with orientation := orientation })

/-- The local variables of `Source3D::run`, each at its final value except where a
second field keeps the earlier one: `x0`, `y0`, `z0` are the projections before the
`if (dist == 0)` statement, `azimuthRad` and `elevationRad` the two `atan2` results,
`azimuth` the result of `fmod` and `elevation` the clamped value in degrees. -/
structure RunLocals where
  pos : Vec3d
  «at» : Vec3d
  right : Vec3d
  up : Vec3d
  x0 : ℝ
  y0 : ℝ
  z0 : ℝ
  dist : ℝ
  x : ℝ
  y : ℝ
  z : ℝ
  azimuthRad : ℝ
  elevationRad : ℝ
  azimuth : ℝ
  elevation : ℝ

/-- The computation of `Source3D::run`, lines 40 to 74, as the values of its local
variables. -/
def Source3D.runLocals {P : Type} (s : Source3D P) (ctx : Context) : RunLocals :=
  let listener_pos := ctx.getPosition
  let listener_orient := ctx.getOrientation
  let listener_at : Vec3d :=
    { x := listener_orient 0, y := listener_orient 1, z := listener_orient 2 }
  let listener_up : Vec3d :=
    { x := listener_orient 3, y := listener_orient 4, z := listener_orient 5 }
  let pos : Vec3d :=
    { x := s.position 0 - listener_pos 0
      y := s.position 1 - listener_pos 1
      z := s.position 2 - listener_pos 2 }
  let «at» := normalize listener_at
  let right := normalize (crossProduct listener_at listener_up)
  let up := crossProduct right «at»
  let y0 := dotProduct «at» pos
  let x0 := dotProduct right pos
  let z0 := dotProduct up pos
  let dist := magnitude pos
  let x := if dist = 0 then 0 else x0 / dist
  let y := if dist = 0 then 1 else y0 / dist
  let z := if dist = 0 then 0 else z0 / dist
  let azimuthRad := atan2 x y
  let elevationRad := atan2 z (Real.sqrt (x * x + y * y))
  let azimuth := fmod (azimuthRad * 180 / PI + 360) 360
  let elevation := clamp (elevationRad * 180 / PI) (-90) 90
  { pos := pos, «at» := «at», right := right, up := up, x0 := x0, y0 := y0, z0 := z0,
    dist := dist, x := x, y := y, z := z, azimuthRad := azimuthRad,
    elevationRad := elevationRad, azimuth := azimuth, elevation := elevation }

/-- The method `Source3D::run`. `mulFromDistanceParams` is the distance model of
`spatialization_math.hpp`, not part of the sources at hand. The result is `none`
when `assert(azimuth >= 0.0)` fails. The closing call of `PannedSource::run` reads
the values published here and is outside the model.
```
this->setAzimuth(clamp(azimuth, 0.0, 360.0));
this->setElevation(elevation);
auto &dp = this->getDistanceParams();
dp.distance = dist;
this->setGain3D(mulFromDistanceParams(dp));
assert(azimuth >= 0.0);
```
-/
def Source3D.run {P : Type} (mulFromDistanceParams : DistanceParams P → ℝ)
    (s : Source3D P) (ctx : Context) : Option (Source3D P) :=
  let l := s.runLocals ctx
  let dp : DistanceParams P := { s.distanceParams with distance := l.dist }
  if 0 ≤ l.azimuth then
    some { s with
      azimuth := clamp l.azimuth 0 360
      elevation := l.elevation
      distanceParams := dp
      gain3D := mulFromDistanceParams dp }
  else
    none

end

/-! ## Concrete bitset states used below -/

/-- A `Bitset<12>` whose first cell is full and whose second cell is empty: bits 0 to
7 set, bits 8 to 11 clear. -/
def lowByteFull12 : Bitset 12 := ⟨[255, 0], by decide, by decide⟩

/-- A `Bitset<12>` with every index 0 to 11 set and the four padding bits of the
second cell clear. -/
def allSet12 : Bitset 12 := ⟨[255, 15], by decide, by decide⟩

/-! ## Concrete listeners and sources used below -/

/-- A listener at the origin facing `at = (0, 1, 0)` with `up = (0, 0, 1)`. -/
noncomputable def listenerAtOrigin : Context :=
  { position := ![0, 0, 0], orientation := ![0, 1, 0, 0, 0, 1] }

/-- A source at `position` whose remaining state is zero and whose orientation is
`at = (0, 1, 0)`, `up = (0, 0, 1)`; its distance parameters carry no other field. -/
noncomputable def sourceAt (position : Fin 3 → ℝ) : Source3D Unit :=
  { position := position
    orientation := ![0, 1, 0, 0, 0, 1]
    azimuth := 0
    elevation := 0
    gain3D := 0
    distanceParams := { distance := 0, others := () } }

/-- A distance model that ignores its parameters. -/
noncomputable def unitGain : DistanceParams Unit → ℝ := fun _ => 1

/-- A listener at the origin facing `at = (0, 1, 0)` whose `up = (0, 1, 1)` is not
perpendicular to `at`. -/
noncomputable def listenerTilted : Context :=
  { position := ![0, 0, 0], orientation := ![0, 1, 0, 0, 1, 1] }

/-! ## The storage of a bitset read bit by bit -/

/-- The number of set bit positions across all `SIZE_IN_BYTES` cells: the positions
`j < 8 * SIZE_IN_BYTES` whose bit reads as set. -/
def Bitset.countSetBits {BITS : Nat} (b : Bitset BITS) : Nat :=
  (List.range (8 * SIZE_IN_BYTES BITS)).countP (fun j => b.bitAt j)

/-! ## Properties of the bitset -/

/-- C1, on the code: with capacity 9 the ninth allocation returns index 0 a second
time while slot 0 is still live, so the nine indices are not pairwise distinct;
index 8 is never handed out, and the call of `getFirstUnsetBit` after the nine
allocations returns 0, not the exhaustion value 9. -/
theorem allocateMany_nine_repeats_zero :
    (Bitset.allocateMany 9 (Bitset.empty 9)).1 =
        [some 0, some 1, some 2, some 3, some 4, some 5, some 6, some 7, some 0] ∧
      ¬ (Bitset.allocateMany 9 (Bitset.empty 9)).1.Nodup ∧
      (Bitset.allocateMany 9 (Bitset.empty 9)).2.bitAt 8 = false ∧
      (Bitset.allocateMany 9 (Bitset.empty 9)).2.getFirstUnsetBit = 0 := by
  decide

/-- C2, on the code: in a `Bitset<12>` with bits 0 to 7 set and bits 8 to 11 clear,
the smallest clear index is 8, yet `getFirstUnsetBit` returns 0, the position inside
the second cell without the offset of that cell, and the bit at index 0 is set. -/
theorem getFirstUnsetBit_drops_byte_offset :
    (∀ j : Fin 8, lowByteFull12.bitAt j.val = true) ∧
      lowByteFull12.bitAt 8 = false ∧
      lowByteFull12.getFirstUnsetBit = 0 ∧
      lowByteFull12.bitAt lowByteFull12.getFirstUnsetBit = true := by
  decide

/-- C3, on the code: in a `Bitset<12>` with every index 0 to 11 set (no bit is
available) `getFirstUnsetBit` returns 4, which is below `SIZE = 12`. -/
theorem getFirstUnsetBit_full_below_size :
    (∀ i : Fin 12, allSet12.bitAt i.val = true) ∧
      allSet12.getFirstUnsetBit = 4 ∧
      ¬ (allSet12.SIZE ≤ allSet12.getFirstUnsetBit) := by
  decide

/-- C4, on the code: with capacity 12, after twelve allocations from the empty
bitset, freeing slot 9 and asking for the first unset bit gives 0, not 9; and from
the state in which all twelve bits are set, the same free gives 1, not 9. -/
theorem free_then_getFirstUnsetBit_not_freed :
    (((Bitset.allocateMany 12 (Bitset.empty 12)).2.free ⟨9, by decide⟩).getFirstUnsetBit
        = 0) ∧
      ((allSet12.free ⟨9, by decide⟩).getFirstUnsetBit = 1) := by
  decide

/-- C5, on the code: with capacity 9, nine allocations that each return an index
below 9 and no free leave `getBitCount` at 8, not at 9 - 0 = 9. -/
theorem getBitCount_after_nine_allocations :
    (∀ r ∈ (Bitset.allocateMany 9 (Bitset.empty 9)).1, ∃ i, r = some i ∧ i < 9) ∧
      (Bitset.allocateMany 9 (Bitset.empty 9)).2.getBitCount = 8 := by
  decide

/-- C6, on the code: in a `Bitset<4>` with all bits clear, `set(1, true)` sets bit 1
of the storage, and `get(1)` afterwards returns `false`: the masked value is 2 and
is compared with 1. -/
theorem get_after_set_true_is_false :
    ((Bitset.empty 4).set ⟨1, by decide⟩ true).data = [2] ∧
      ((Bitset.empty 4).set ⟨1, by decide⟩ true).bitAt 1 = true ∧
      ((Bitset.empty 4).set ⟨1, by decide⟩ true).get ⟨1, by decide⟩ = false := by
  decide

/-! ### What `set` does to one cell -/

theorem testBit_or_mask_of_ne (old bit k : Nat) (hk : k < 8) (hne : k ≠ bit) :
    ((old ||| 1 <<< bit) % 256).testBit k = old.testBit k := by
  have h256 : (256 : Nat) = 2 ^ 8 := by norm_num
  rw [h256, Nat.testBit_mod_two_pow, Nat.testBit_or, Nat.one_shiftLeft, Nat.testBit_two_pow]
  have h1 : decide (bit = k) = false := decide_eq_false (fun h => hne h.symm)
  simp [hk, h1]

theorem compl32_mask (bit : Nat) (hb : bit < 8) :
    compl32 (1 <<< bit) = 2 ^ 32 - (2 ^ bit + 1) := by
  have hlt : 2 ^ bit < 2 ^ 32 := Nat.pow_lt_pow_right (by norm_num) (by omega)
  unfold compl32
  rw [Nat.one_shiftLeft, Nat.mod_eq_of_lt hlt]
  omega

theorem testBit_compl32_mask (bit k : Nat) (hb : bit < 8) (hk : k < 8) :
    (compl32 (1 <<< bit)).testBit k = !decide (bit = k) := by
  have hlt : 2 ^ bit < 2 ^ 32 := Nat.pow_lt_pow_right (by norm_num) (by omega)
  have hk32 : k < 32 := by omega
  rw [compl32_mask bit hb, Nat.testBit_two_pow_sub_succ hlt, Nat.testBit_two_pow]
  simp [hk32]

theorem testBit_and_mask_of_ne (old bit k : Nat) (hb : bit < 8) (hk : k < 8)
    (hne : k ≠ bit) :
    ((old &&& compl32 (1 <<< bit)) % 256).testBit k = old.testBit k := by
  have h256 : (256 : Nat) = 2 ^ 8 := by norm_num
  rw [h256, Nat.testBit_mod_two_pow, Nat.testBit_and, testBit_compl32_mask bit k hb hk]
  have h1 : decide (bit = k) = false := decide_eq_false (fun h => hne h.symm)
  simp [hk, h1]

theorem index_div_lt {BITS : Nat} (b : Bitset BITS) (index : Fin BITS) :
    index.val / 8 < b.data.length := by
  have h := index.isLt
  rw [b.size_eq]
  unfold SIZE_IN_BYTES nextMultipleOf
  omega

theorem set_data {BITS : Nat} (b : Bitset BITS) (index : Fin BITS) (value : Bool) :
    (b.set index value).data =
      b.data.set (index.val / 8)
        ((if value then b.data.getD (index.val / 8) 0 ||| 1 <<< (index.val % 8)
          else b.data.getD (index.val / 8) 0 &&& compl32 (1 <<< (index.val % 8))) % 256) := by
  have h := index_div_lt b index
  have hg : b.data.getD (index.val / 8) 0 = b.data.get ⟨index.val / 8, h⟩ := by
    simp [List.getD_eq_getElem?_getD, List.getElem?_eq_getElem h]
  rw [hg]
  rfl

/-- C17: for every bitset state, every index `i < BITS` and every boolean `v`,
`set(i, v)` changes no bit other than bit `i`: every bit position
`j < 8 * SIZE_IN_BYTES` with `j ≠ i` holds the same value after the call as before. -/
theorem set_keeps_other_bits {BITS : Nat} (b : Bitset BITS) (i : Fin BITS) (v : Bool)
    (j : Nat) (_hj : j < 8 * SIZE_IN_BYTES BITS) (hne : j ≠ i.val) :
    (b.set i v).bitAt j = b.bitAt j := by
  have hlen := index_div_lt b i
  unfold Bitset.bitAt
  rw [set_data]
  by_cases hbyte : j / 8 = i.val / 8
  · have hbit : j % 8 ≠ i.val % 8 := by omega
    have hk : j % 8 < 8 := Nat.mod_lt _ (by norm_num)
    have hb : i.val % 8 < 8 := Nat.mod_lt _ (by norm_num)
    rw [hbyte]
    simp only [List.getD_eq_getElem?_getD, List.getElem?_set_self hlen, Option.getD_some]
    cases v
    · simpa using testBit_and_mask_of_ne _ _ _ hb hk hbit
    · simpa using testBit_or_mask_of_ne _ _ _ hk hbit
  · have hbyte' : i.val / 8 ≠ j / 8 := fun h => hbyte h.symm
    simp only [List.getD_eq_getElem?_getD, List.getElem?_set_ne hbyte']

theorem set_keeps_other_bits_witness :
    (5 < 8 * SIZE_IN_BYTES 12) ∧ (5 ≠ (⟨9, by decide⟩ : Fin 12).val) ∧
      (lowByteFull12.set ⟨9, by decide⟩ true).bitAt 5 = lowByteFull12.bitAt 5 :=
  ⟨by decide, by decide,
    set_keeps_other_bits lowByteFull12 ⟨9, by decide⟩ true 5 (by decide) (by decide)⟩

/-! ### The population count read bit by bit -/

theorem popcountLoop_eq_countP (fuel v : Nat) :
    popcountLoop fuel v = (List.range fuel).countP (fun k => v.testBit k) := by
  induction fuel generalizing v with
  | zero => rfl
  | succ n ih =>
    have hmap : List.countP (fun k => v.testBit k) (List.map Nat.succ (List.range n)) =
        List.countP (fun k => (v / 2).testBit k) (List.range n) := by
      rw [List.countP_map]
      apply List.countP_congr
      intro k _
      simp [Nat.testBit_succ]
    have hbit : (if v.testBit 0 = true then 1 else 0) = v % 2 := by
      rw [Nat.testBit_zero]
      rcases Nat.mod_two_eq_zero_or_one v with h | h <;> simp [h]
    rw [List.range_succ_eq_map, List.countP_cons, hmap, hbit]
    show v % 2 + popcountLoop n (v / 2) = _
    rw [ih, Nat.add_comm]

theorem countP_testBit_high (d lo n : Nat) (hd : d < 2 ^ lo) :
    List.countP (fun k => d.testBit k) (List.map (fun k => lo + k) (List.range n)) = 0 := by
  rw [List.countP_eq_zero]
  intro k hk
  obtain ⟨m, _, rfl⟩ := List.mem_map.mp hk
  have hlt : d < 2 ^ (lo + m) :=
    lt_of_lt_of_le hd (Nat.pow_le_pow_right (by norm_num) (Nat.le_add_right lo m))
  simp [Nat.testBit_lt_two_pow hlt]

/-- On a cell value, `__builtin_popcount` counts the set bits among positions 0
to 7. -/
theorem builtin_popcount_byte (d : Nat) (hd : d < 256) :
    builtin_popcount d = (List.range 8).countP (fun k => d.testBit k) := by
  have h32 : List.range 32 = List.range 8 ++ List.map (fun k => 8 + k) (List.range 24) :=
    List.range_add 8 24
  unfold builtin_popcount
  rw [popcountLoop_eq_countP, h32, List.countP_append, countP_testBit_high d 8 24 hd]
  rfl

/-- Two predicates that agree below `n` except at `bit`, where the first holds and
the second fails, differ by one in their counts over `0 .. n-1`. -/
theorem countP_range_flip (p q : Nat → Bool) (n bit : Nat) (hbit : bit < n)
    (hsame : ∀ k, k < n → k ≠ bit → p k = q k) (hp : p bit = true) (hq : q bit = false) :
    (List.range n).countP p = (List.range n).countP q + 1 := by
  induction n with
  | zero => omega
  | succ n ih =>
    rw [List.range_succ, List.countP_append, List.countP_append, List.countP_singleton,
      List.countP_singleton]
    by_cases hn : bit = n
    · subst hn
      have hrest : (List.range bit).countP p = (List.range bit).countP q := by
        apply List.countP_congr
        intro k hk
        have hk' : k < bit := List.mem_range.mp hk
        rw [hsame k (by omega) (by omega)]
      rw [hrest, hp, hq]
      simp
    · have hlt : bit < n := by omega
      have h1 := ih hlt (fun k hk hne => hsame k (by omega) hne)
      have h2 : p n = q n := hsame n (by omega) (fun h => hn h.symm)
      rw [h1, h2]
      omega

theorem countP_range_same (p q : Nat → Bool) (n : Nat) (hsame : ∀ k, k < n → p k = q k) :
    (List.range n).countP p = (List.range n).countP q := by
  apply List.countP_congr
  intro k hk
  rw [hsame k (List.mem_range.mp hk)]

theorem testBit_or_mask_self (old bit : Nat) (hb : bit < 8) :
    ((old ||| 1 <<< bit) % 256).testBit bit = true := by
  have h256 : (256 : Nat) = 2 ^ 8 := by norm_num
  rw [h256, Nat.testBit_mod_two_pow, Nat.testBit_or, Nat.one_shiftLeft, Nat.testBit_two_pow]
  simp [hb]

theorem testBit_and_mask_self (old bit : Nat) (hb : bit < 8) :
    ((old &&& compl32 (1 <<< bit)) % 256).testBit bit = false := by
  have h256 : (256 : Nat) = 2 ^ 8 := by norm_num
  rw [h256, Nat.testBit_mod_two_pow, Nat.testBit_and, testBit_compl32_mask bit bit hb hb]
  simp

/-- The population count of the cell that `set` stores, against the count of the
cell it read: one more when a clear bit is set, one less when a set bit is cleared,
the same when the bit already holds the value. -/
theorem builtin_popcount_stored (old bit : Nat) (hold : old < 256) (hb : bit < 8) :
    (old.testBit bit = false →
        builtin_popcount ((old ||| 1 <<< bit) % 256) = builtin_popcount old + 1) ∧
      (old.testBit bit = true →
        builtin_popcount ((old ||| 1 <<< bit) % 256) = builtin_popcount old) ∧
      (old.testBit bit = true →
        builtin_popcount ((old &&& compl32 (1 <<< bit)) % 256) + 1 = builtin_popcount old) ∧
      (old.testBit bit = false →
        builtin_popcount ((old &&& compl32 (1 <<< bit)) % 256) = builtin_popcount old) := by
  have hlt1 : (old ||| 1 <<< bit) % 256 < 256 := Nat.mod_lt _ (by norm_num)
  have hlt2 : (old &&& compl32 (1 <<< bit)) % 256 < 256 := Nat.mod_lt _ (by norm_num)
  rw [builtin_popcount_byte _ hlt1, builtin_popcount_byte _ hlt2, builtin_popcount_byte _ hold]
  refine ⟨?_, ?_, ?_, ?_⟩
  · intro h
    exact countP_range_flip _ _ 8 bit hb
      (fun k hk hne => testBit_or_mask_of_ne old bit k hk hne)
      (testBit_or_mask_self old bit hb) h
  · intro h
    apply countP_range_same
    intro k hk
    by_cases hkb : k = bit
    · rw [hkb, testBit_or_mask_self old bit hb, h]
    · exact testBit_or_mask_of_ne old bit k hk hkb
  · intro h
    exact (countP_range_flip _ _ 8 bit hb
      (fun k hk hne => (testBit_and_mask_of_ne old bit k hb hk hne).symm) h
      (testBit_and_mask_self old bit hb)).symm
  · intro h
    apply countP_range_same
    intro k hk
    by_cases hkb : k = bit
    · rw [hkb, testBit_and_mask_self old bit hb, h]
    · exact testBit_and_mask_of_ne old bit k hb hk hkb

theorem getBitCountLoop_eq (l : List Nat) (ret : Nat) :
    getBitCountLoop l ret = ret + (l.map builtin_popcount).sum := by
  induction l generalizing ret with
  | nil => rfl
  | cons d rest ih =>
    show getBitCountLoop rest (ret + builtin_popcount d) = _
    rw [ih, List.map_cons, List.sum_cons, Nat.add_assoc]

theorem getBitCount_eq_sum {BITS : Nat} (b : Bitset BITS) :
    b.getBitCount = (b.data.map builtin_popcount).sum := by
  unfold Bitset.getBitCount
  rw [getBitCountLoop_eq, Nat.zero_add]

theorem sum_map_set (f : Nat → Nat) (l : List Nat) (k x : Nat) (hk : k < l.length) :
    ((l.set k x).map f).sum + f (l.getD k 0) = (l.map f).sum + f x := by
  induction l generalizing k with
  | nil => simp at hk
  | cons d rest ih =>
    cases k with
    | zero =>
      simp only [List.set_cons_zero, List.map_cons, List.sum_cons, List.getD_cons_zero]
      omega
    | succ k =>
      have hk' : k < rest.length := by simpa using hk
      have h := ih k hk'
      simp only [List.set_cons_succ, List.map_cons, List.sum_cons, List.getD_cons_succ]
      omega

theorem getD_lt_256 {BITS : Nat} (b : Bitset BITS) (k : Nat) : b.data.getD k 0 < 256 := by
  by_cases hk : k < b.data.length
  · have hm : b.data.getD k 0 ∈ b.data := by
      rw [List.getD_eq_getElem _ _ hk]
      exact List.getElem_mem hk
    exact b.byte_lt _ hm
  · rw [List.getD_eq_default _ _ (by omega)]
    norm_num

/-- The cells of a list of bytes read bit by bit count as many set positions as the
population counts of the cells add up to. -/
theorem countP_bits_eq_sum (l : List Nat) (hl : ∀ d ∈ l, d < 256) :
    (List.range (8 * l.length)).countP (fun j => (l.getD (j / 8) 0).testBit (j % 8)) =
      (l.map builtin_popcount).sum := by
  induction l with
  | nil => rfl
  | cons d rest ih =>
    have hd : d < 256 := hl d (List.mem_cons_self d rest)
    have hrest : ∀ e ∈ rest, e < 256 := fun e he => hl e (List.mem_cons_of_mem d he)
    have hlen : 8 * (d :: rest).length = 8 + 8 * rest.length := by
      rw [List.length_cons]
      omega
    have hfirst : (List.range 8).countP
        (fun j => ((d :: rest).getD (j / 8) 0).testBit (j % 8)) =
        (List.range 8).countP (fun k => d.testBit k) := by
      apply List.countP_congr
      intro j hj
      have hj8 : j < 8 := List.mem_range.mp hj
      have h0 : j / 8 = 0 := Nat.div_eq_of_lt hj8
      have h1 : j % 8 = j := Nat.mod_eq_of_lt hj8
      simp [h0, h1]
    have hsecond : (List.map (fun k => 8 + k) (List.range (8 * rest.length))).countP
        (fun j => ((d :: rest).getD (j / 8) 0).testBit (j % 8)) =
        (List.range (8 * rest.length)).countP
          (fun j => (rest.getD (j / 8) 0).testBit (j % 8)) := by
      rw [List.countP_map]
      apply List.countP_congr
      intro j _
      have h0 : (8 + j) / 8 = j / 8 + 1 := by omega
      have h1 : (8 + j) % 8 = j % 8 := by omega
      simp [h0, h1]
    rw [hlen, List.range_add, List.countP_append, hfirst, hsecond, ih hrest,
      List.map_cons, List.sum_cons, builtin_popcount_byte d hd]

theorem getBitCount_set_add {BITS : Nat} (b : Bitset BITS) (i : Fin BITS) (v : Bool) :
    (b.set i v).getBitCount + builtin_popcount (b.data.getD (i.val / 8) 0) =
      b.getBitCount +
        builtin_popcount
          ((if v then b.data.getD (i.val / 8) 0 ||| 1 <<< (i.val % 8)
            else b.data.getD (i.val / 8) 0 &&& compl32 (1 <<< (i.val % 8))) % 256) := by
  rw [getBitCount_eq_sum, getBitCount_eq_sum, set_data]
  exact sum_map_set builtin_popcount b.data (i.val / 8) _ (index_div_lt b i)

theorem getBitCount_eq_countSetBits {BITS : Nat} (b : Bitset BITS) :
    b.getBitCount = b.countSetBits := by
  rw [getBitCount_eq_sum]
  unfold Bitset.countSetBits Bitset.bitAt
  rw [← b.size_eq]
  exact (countP_bits_eq_sum b.data b.byte_lt).symm

/-- C18: for every bitset state and every index `i < BITS`, `getBitCount` grows by
exactly 1 when `set(i, true)` is applied to a clear bit, shrinks by exactly 1 when
`set(i, false)` is applied to a set bit, and is unchanged when `set(i, v)` writes the
value the bit already holds; and `getBitCount` equals the number of set bit
positions across all `SIZE_IN_BYTES` cells. -/
theorem getBitCount_set {BITS : Nat} (b : Bitset BITS) (i : Fin BITS) :
    (b.bitAt i.val = false → (b.set i true).getBitCount = b.getBitCount + 1) ∧
      (b.bitAt i.val = true → (b.set i false).getBitCount + 1 = b.getBitCount) ∧
      (∀ v : Bool, b.bitAt i.val = v → (b.set i v).getBitCount = b.getBitCount) ∧
      b.getBitCount = b.countSetBits := by
  have hold := getD_lt_256 b (i.val / 8)
  have hb : i.val % 8 < 8 := Nat.mod_lt _ (by norm_num)
  obtain ⟨h1, h2, h3, h4⟩ := builtin_popcount_stored _ _ hold hb
  have hT := getBitCount_set_add b i true
  have hF := getBitCount_set_add b i false
  simp only [if_true, Bool.false_eq_true, if_false] at hT hF
  have hbit : b.bitAt i.val = (b.data.getD (i.val / 8) 0).testBit (i.val % 8) := rfl
  refine ⟨?_, ?_, ?_, getBitCount_eq_countSetBits b⟩
  · intro h
    rw [hbit] at h
    have := h1 h
    omega
  · intro h
    rw [hbit] at h
    have := h3 h
    omega
  · intro v h
    rw [hbit] at h
    cases v
    · have := h4 h
      omega
    · have := h2 h
      omega

theorem getBitCount_set_witness :
    lowByteFull12.bitAt 9 = false ∧ allSet12.bitAt 9 = true ∧
      (lowByteFull12.set ⟨9, by decide⟩ true).getBitCount = lowByteFull12.getBitCount + 1 ∧
      (allSet12.set ⟨9, by decide⟩ false).getBitCount + 1 = allSet12.getBitCount ∧
      (allSet12.set ⟨9, by decide⟩ true).getBitCount = allSet12.getBitCount ∧
      (lowByteFull12.set ⟨9, by decide⟩ false).getBitCount = lowByteFull12.getBitCount ∧
      allSet12.getBitCount = allSet12.countSetBits :=
  ⟨by decide, by decide,
    (getBitCount_set lowByteFull12 ⟨9, by decide⟩).1 (by decide),
    (getBitCount_set allSet12 ⟨9, by decide⟩).2.1 (by decide),
    (getBitCount_set allSet12 ⟨9, by decide⟩).2.2.1 true (by decide),
    (getBitCount_set lowByteFull12 ⟨9, by decide⟩).2.2.1 false (by decide),
    (getBitCount_set allSet12 ⟨9, by decide⟩).2.2.2⟩

/-! ## Properties of the 3D source transform -/

theorem PI_pos : 0 < PI := Real.pi_pos

theorem atan2_gt (y x : ℝ) : -PI < atan2 y x := Complex.neg_pi_lt_arg _

theorem atan2_le (y x : ℝ) : atan2 y x ≤ PI := Complex.arg_le_pi _

theorem atan2_zero_one : atan2 0 1 = 0 := by
  have h : (⟨1, 0⟩ : ℂ) = 1 := rfl
  unfold atan2
  rw [h, Complex.arg_one]

theorem fmod_nonneg_lt (a b : ℝ) (ha : 0 ≤ a) (hb : 0 < b) :
    0 ≤ fmod a b ∧ fmod a b < b := by
  have hq : 0 ≤ a / b := div_nonneg ha hb.le
  have hfl := Int.floor_le (a / b)
  have hlt := Int.lt_floor_add_one (a / b)
  have hrw : fmod a b = b * (a / b - (⌊a / b⌋ : ℝ)) := by
    unfold fmod truncate
    rw [if_pos hq]
    field_simp
  rw [hrw]
  constructor
  · exact mul_nonneg hb.le (by linarith)
  · calc b * (a / b - (⌊a / b⌋ : ℝ)) < b * 1 :=
        mul_lt_mul_of_pos_left (by linarith) hb
      _ = b := mul_one b

theorem clamp_of_mem (v lo hi : ℝ) (h1 : lo ≤ v) (h2 : v ≤ hi) : clamp v lo hi = v := by
  unfold clamp
  rw [if_neg (not_lt.mpr h1), if_neg (not_lt.mpr h2)]

/-- The argument that `run` hands to `fmod` is positive: more than 180. -/
theorem degrees_plus_360_pos (y x : ℝ) : 180 < atan2 y x * 180 / PI + 360 := by
  have h := atan2_gt y x
  have hp := PI_pos
  have h2 : -180 < atan2 y x * 180 / PI := by
    rw [lt_div_iff₀ hp]
    linarith
  linarith

theorem runLocals_azimuth_eq {P : Type} (s : Source3D P) (ctx : Context) :
    (s.runLocals ctx).azimuth =
      fmod (atan2 (s.runLocals ctx).x (s.runLocals ctx).y * 180 / PI + 360) 360 :=
  rfl

theorem runLocals_elevation_eq {P : Type} (s : Source3D P) (ctx : Context) :
    (s.runLocals ctx).elevation =
      clamp (atan2 (s.runLocals ctx).z
        (Real.sqrt ((s.runLocals ctx).x * (s.runLocals ctx).x +
          (s.runLocals ctx).y * (s.runLocals ctx).y)) * 180 / PI) (-90) 90 :=
  rfl

/-- The value of `azimuth` after the `fmod` statement lies in `[0, 360)`. -/
theorem runLocals_azimuth_range {P : Type} (s : Source3D P) (ctx : Context) :
    0 ≤ (s.runLocals ctx).azimuth ∧ (s.runLocals ctx).azimuth < 360 := by
  have h := degrees_plus_360_pos (s.runLocals ctx).x (s.runLocals ctx).y
  have h0 : (0 : ℝ) ≤ atan2 (s.runLocals ctx).x (s.runLocals ctx).y * 180 / PI + 360 :=
    le_trans (by norm_num) h.le
  rw [runLocals_azimuth_eq]
  exact fmod_nonneg_lt _ 360 h0 (by norm_num)

/-- The assertion of `run` holds, so `run` returns the updated source. -/
theorem run_eq_some {P : Type} (mulFromDistanceParams : DistanceParams P → ℝ)
    (s : Source3D P) (ctx : Context) :
    s.run mulFromDistanceParams ctx =
      some { s with
        azimuth := clamp (s.runLocals ctx).azimuth 0 360
        elevation := (s.runLocals ctx).elevation
        distanceParams := { s.distanceParams with distance := (s.runLocals ctx).dist }
        gain3D := mulFromDistanceParams
          { s.distanceParams with distance := (s.runLocals ctx).dist } } := by
  unfold Source3D.run
  simp only []
  rw [if_pos (runLocals_azimuth_range s ctx).1]

theorem listenerAtOrigin_at :
    orientationAt listenerAtOrigin.getOrientation = ⟨0, 1, 0⟩ := rfl

theorem listenerAtOrigin_up :
    orientationUp listenerAtOrigin.getOrientation = ⟨0, 0, 1⟩ := rfl

theorem listenerAtOrigin_nonDegenerate : NonDegenerate listenerAtOrigin.getOrientation := by
  unfold NonDegenerate
  rw [listenerAtOrigin_at, listenerAtOrigin_up]
  refine ⟨?_, ?_, ?_⟩
  · intro h
    have h1 := congrArg Vec3d.y h
    simp at h1
  · intro h
    have h1 := congrArg Vec3d.z h
    simp at h1
  · rintro ⟨k, ⟨_, _, h⟩ | ⟨_, h, _⟩⟩ <;> simp at h

theorem magnitude_zero : magnitude ⟨0, 0, 0⟩ = 0 := by
  simp [magnitude, dotProduct]

theorem fmod_360_360 : fmod 360 360 = 0 := by
  have h : truncate ((360 : ℝ) / 360) = 1 := by
    unfold truncate
    rw [div_self (by norm_num : (360 : ℝ) ≠ 0), if_pos zero_le_one, Int.floor_one]
  unfold fmod
  rw [h]
  norm_num

/-- When the emitter is at the listener position the relative position is the zero
vector and `dist` is zero. -/
theorem runLocals_dist_of_same_position {P : Type} (s : Source3D P) (ctx : Context)
    (hp : s.getPosition = ctx.getPosition) : (s.runLocals ctx).dist = 0 := by
  have h0 : (s.runLocals ctx).dist =
      magnitude ⟨s.position 0 - ctx.getPosition 0, s.position 1 - ctx.getPosition 1,
        s.position 2 - ctx.getPosition 2⟩ := rfl
  have hp' : s.position = ctx.getPosition := hp
  rw [h0, hp', sub_self, sub_self, sub_self]
  exact magnitude_zero

theorem runLocals_xyz_of_dist_zero {P : Type} (s : Source3D P) (ctx : Context)
    (hd : (s.runLocals ctx).dist = 0) :
    (s.runLocals ctx).x = 0 ∧ (s.runLocals ctx).y = 1 ∧ (s.runLocals ctx).z = 0 := by
  have hx : (s.runLocals ctx).x =
      if (s.runLocals ctx).dist = 0 then 0
      else (s.runLocals ctx).x0 / (s.runLocals ctx).dist := rfl
  have hy : (s.runLocals ctx).y =
      if (s.runLocals ctx).dist = 0 then 1
      else (s.runLocals ctx).y0 / (s.runLocals ctx).dist := rfl
  have hz : (s.runLocals ctx).z =
      if (s.runLocals ctx).dist = 0 then 0
      else (s.runLocals ctx).z0 / (s.runLocals ctx).dist := rfl
  rw [hx, hy, hz, if_pos hd, if_pos hd, if_pos hd]
  exact ⟨rfl, rfl, rfl⟩

/-- C9: for every listener position and every listener orientation whose `at` and
`up` are non-zero and not parallel, when the emitter position equals the listener
position, `run` takes the branch `dist == 0` (the direction is set to `(0, 1, 0)`
with no division) and publishes azimuth 0, elevation 0 and distance 0. -/
theorem run_same_position {P : Type} (mulFromDistanceParams : DistanceParams P → ℝ)
    (s : Source3D P) (ctx : Context) (_h : NonDegenerate ctx.getOrientation)
    (hp : s.getPosition = ctx.getPosition) :
    ((s.runLocals ctx).dist = 0 ∧ (s.runLocals ctx).x = 0 ∧ (s.runLocals ctx).y = 1 ∧
        (s.runLocals ctx).z = 0) ∧
      ∃ s' : Source3D P, s.run mulFromDistanceParams ctx = some s' ∧
        s'.azimuth = 0 ∧ s'.elevation = 0 ∧ s'.distanceParams.distance = 0 := by
  have hd := runLocals_dist_of_same_position s ctx hp
  obtain ⟨hx, hy, hz⟩ := runLocals_xyz_of_dist_zero s ctx hd
  have haz : (s.runLocals ctx).azimuth = 0 := by
    rw [runLocals_azimuth_eq, hx, hy, atan2_zero_one]
    norm_num
    exact fmod_360_360
  have hel : (s.runLocals ctx).elevation = 0 := by
    rw [runLocals_elevation_eq, hx, hy, hz]
    norm_num
    rw [atan2_zero_one]
    norm_num
    exact clamp_of_mem 0 (-90) 90 (by norm_num) (by norm_num)
  refine ⟨⟨hd, hx, hy, hz⟩, _, run_eq_some mulFromDistanceParams s ctx, ?_, ?_, ?_⟩
  · show clamp (s.runLocals ctx).azimuth 0 360 = 0
    rw [haz]
    exact clamp_of_mem 0 0 360 (le_refl 0) (by norm_num)
  · exact hel
  · exact hd

theorem run_same_position_witness :
    NonDegenerate listenerAtOrigin.getOrientation ∧
      (sourceAt ![0, 0, 0]).getPosition = listenerAtOrigin.getPosition ∧
      (((sourceAt ![0, 0, 0]).runLocals listenerAtOrigin).dist = 0 ∧
          ((sourceAt ![0, 0, 0]).runLocals listenerAtOrigin).x = 0 ∧
          ((sourceAt ![0, 0, 0]).runLocals listenerAtOrigin).y = 1 ∧
          ((sourceAt ![0, 0, 0]).runLocals listenerAtOrigin).z = 0) ∧
        ∃ s' : Source3D Unit,
          (sourceAt ![0, 0, 0]).run unitGain listenerAtOrigin = some s' ∧
            s'.azimuth = 0 ∧ s'.elevation = 0 ∧ s'.distanceParams.distance = 0 :=
  ⟨listenerAtOrigin_nonDegenerate, rfl,
    run_same_position unitGain (sourceAt ![0, 0, 0]) listenerAtOrigin
      listenerAtOrigin_nonDegenerate rfl⟩

theorem crossProduct_of_parallel (a b : Vec3d) (h : Parallel a b) :
    crossProduct a b = ⟨0, 0, 0⟩ := by
  obtain ⟨k, ⟨hx, hy, hz⟩ | ⟨hx, hy, hz⟩⟩ := h
  · ext <;> simp only [crossProduct, hx, hy, hz] <;> ring
  · ext <;> simp only [crossProduct, hx, hy, hz] <;> ring

theorem throwIfParallel_of_parallel (eps : ℝ) (heps : 0 < eps) (a b : Vec3d)
    (h : Parallel a b) :
    throwIfParallel eps a b = Except.error "Vectors must not be parallel" := by
  unfold throwIfParallel
  rw [crossProduct_of_parallel a b h, magnitude_zero, if_pos heps]

/-- C10: for every source state and every orientation whose `at` and `up` are
parallel, `setOrientation` fails and leaves the source unchanged, so that
`getOrientation` afterwards returns the orientation held before the call. The
rejection threshold of `throwIfParallel` is any positive `eps`. -/
theorem setOrientation_parallel_rejected {P : Type} (eps : ℝ) (heps : 0 < eps)
    (s : Source3D P) (orientation : Fin 6 → ℝ)
    (h : Parallel (orientationAt orientation) (orientationUp orientation)) :
    (∃ e : String, (s.setOrientation eps orientation).1 = Except.error e) ∧
      (s.setOrientation eps orientation).2 = s ∧
      (s.setOrientation eps orientation).2.getOrientation = s.getOrientation := by
  have ht := throwIfParallel_of_parallel eps heps _ _ h
  unfold orientationAt orientationUp at ht
  have hs : s.setOrientation eps orientation =
      (Except.error "Vectors must not be parallel", s) := by
    unfold Source3D.setOrientation
    simp only [ht]
  rw [hs]
  exact ⟨⟨_, rfl⟩, rfl, rfl⟩

theorem setOrientation_parallel_rejected_witness :
    (0 : ℝ) < 1 / 1000 ∧
      Parallel (orientationAt ![0, 1, 0, 0, 2, 0]) (orientationUp ![0, 1, 0, 0, 2, 0]) ∧
      (∃ e : String,
          ((sourceAt ![0, 0, 0]).setOrientation (1 / 1000) ![0, 1, 0, 0, 2, 0]).1 =
            Except.error e) ∧
        ((sourceAt ![0, 0, 0]).setOrientation (1 / 1000) ![0, 1, 0, 0, 2, 0]).2 =
          sourceAt ![0, 0, 0] ∧
        ((sourceAt ![0, 0, 0]).setOrientation (1 / 1000) ![0, 1, 0, 0, 2, 0]).2.getOrientation
          = (sourceAt ![0, 0, 0]).getOrientation :=
  have hpar : Parallel (orientationAt ![0, 1, 0, 0, 2, 0])
      (orientationUp ![0, 1, 0, 0, 2, 0]) := by
    have ha : orientationAt ![0, 1, 0, 0, 2, 0] = ⟨0, 1, 0⟩ := rfl
    have hu : orientationUp ![0, 1, 0, 0, 2, 0] = ⟨0, 2, 0⟩ := rfl
    rw [ha, hu]
    exact ⟨2, Or.inl ⟨by norm_num, by norm_num, by norm_num⟩⟩
  ⟨by norm_num, hpar,
    setOrientation_parallel_rejected (1 / 1000) (by norm_num) (sourceAt ![0, 0, 0])
      ![0, 1, 0, 0, 2, 0] hpar⟩

/-- C14: for every listener position, emitter position and distance parameters,
`run` returns, sets the distance to the Euclidean norm of the emitter position minus
the listener position, which is not negative, passes to `setGain3D` the distance
model applied to the parameters with only the field `distance` replaced by that norm,
and leaves every other field of the parameters unchanged. -/
theorem run_distance_gain {P : Type} (mulFromDistanceParams : DistanceParams P → ℝ)
    (s : Source3D P) (ctx : Context) :
    ∃ s' : Source3D P, s.run mulFromDistanceParams ctx = some s' ∧
      s'.distanceParams.distance =
        Real.sqrt ((s.getPosition 0 - ctx.getPosition 0) * (s.getPosition 0 - ctx.getPosition 0) +
          (s.getPosition 1 - ctx.getPosition 1) * (s.getPosition 1 - ctx.getPosition 1) +
          (s.getPosition 2 - ctx.getPosition 2) * (s.getPosition 2 - ctx.getPosition 2)) ∧
      0 ≤ s'.distanceParams.distance ∧
      s'.distanceParams.others = s.distanceParams.others ∧
      s'.gain3D = mulFromDistanceParams
        { distance := s'.distanceParams.distance, others := s.distanceParams.others } :=
  ⟨_, run_eq_some mulFromDistanceParams s ctx, rfl, Real.sqrt_nonneg _, rfl, rfl⟩

theorem atan2_one_zero : atan2 1 0 = PI / 2 := by
  have h : (⟨0, 1⟩ : ℂ) = Complex.I := rfl
  unfold atan2 PI
  rw [h, Complex.arg_I]

theorem atan2_zero_neg_one : atan2 0 (-1) = PI := by
  have h : (⟨-1, 0⟩ : ℂ) = -1 := by
    apply Complex.ext <;> simp
  unfold atan2 PI
  rw [h, Complex.arg_neg_one]

theorem atan2_neg_one_zero : atan2 (-1) 0 = -(PI / 2) := by
  have h : (⟨0, -1⟩ : ℂ) = -Complex.I := by
    apply Complex.ext <;> simp
  unfold atan2 PI
  rw [h, Complex.arg_neg_I]

theorem atan2_zero_zero : atan2 0 0 = 0 := by
  have h : (⟨0, 0⟩ : ℂ) = 0 := rfl
  unfold atan2
  rw [h, Complex.arg_zero]

theorem fmod_of_lt (a : ℝ) (h0 : 0 ≤ a) (h1 : a < 360) : fmod a 360 = a := by
  have hq : 0 ≤ a / 360 := div_nonneg h0 (by norm_num)
  have hfl : ⌊a / 360⌋ = 0 := by
    rw [Int.floor_eq_iff]
    constructor
    · simpa using hq
    · rw [div_lt_iff₀ (by norm_num)]
      simpa using h1
  unfold fmod truncate
  rw [if_pos hq, hfl]
  simp

theorem fmod_of_ge (a : ℝ) (h0 : 360 ≤ a) (h1 : a < 720) : fmod a 360 = a - 360 := by
  have hq : 0 ≤ a / 360 := div_nonneg (by linarith) (by norm_num)
  have hfl : ⌊a / 360⌋ = 1 := by
    rw [Int.floor_eq_iff]
    constructor
    · rw [le_div_iff₀ (by norm_num)]
      simpa using h0
    · rw [div_lt_iff₀ (by norm_num)]
      norm_num
      linarith
  unfold fmod truncate
  rw [if_pos hq, hfl]
  simp

theorem degrees_half_pi : PI / 2 * 180 / PI = 90 := by
  have h := PI_pos.ne'
  field_simp
  ring

theorem degrees_pi : PI * 180 / PI = 180 := by
  have h := PI_pos.ne'
  field_simp

theorem degrees_neg_half_pi : -(PI / 2) * 180 / PI = -90 := by
  have h := PI_pos.ne'
  field_simp
  ring

theorem normalize_y_axis : normalize ⟨0, 1, 0⟩ = ⟨0, 1, 0⟩ := by
  have hm : magnitude ⟨0, 1, 0⟩ = 1 := by
    simp [magnitude, dotProduct]
  unfold normalize
  rw [hm]
  simp

theorem normalize_x_axis : normalize ⟨1, 0, 0⟩ = ⟨1, 0, 0⟩ := by
  have hm : magnitude ⟨1, 0, 0⟩ = 1 := by
    simp [magnitude, dotProduct]
  unfold normalize
  rw [hm]
  simp

/-- The basis that `run` builds for the listener at the origin. -/
theorem runLocals_origin_basis {P : Type} (s : Source3D P) :
    (s.runLocals listenerAtOrigin).«at» = ⟨0, 1, 0⟩ ∧
      (s.runLocals listenerAtOrigin).right = ⟨1, 0, 0⟩ ∧
      (s.runLocals listenerAtOrigin).up = ⟨0, 0, 1⟩ := by
  have hc : crossProduct ⟨0, 1, 0⟩ ⟨0, 0, 1⟩ = ⟨1, 0, 0⟩ := by
    ext <;> simp [crossProduct]
  have hc2 : crossProduct ⟨1, 0, 0⟩ ⟨0, 1, 0⟩ = ⟨0, 0, 1⟩ := by
    ext <;> simp [crossProduct]
  have hat : (s.runLocals listenerAtOrigin).«at» = normalize ⟨0, 1, 0⟩ := rfl
  have hright : (s.runLocals listenerAtOrigin).right =
      normalize (crossProduct ⟨0, 1, 0⟩ ⟨0, 0, 1⟩) := rfl
  have hup : (s.runLocals listenerAtOrigin).up =
      crossProduct (s.runLocals listenerAtOrigin).right
        (s.runLocals listenerAtOrigin).«at» := rfl
  rw [hc, normalize_x_axis] at hright
  rw [normalize_y_axis] at hat
  rw [hright, hat, hc2] at hup
  exact ⟨hat, hright, hup⟩

/-- For the listener at the origin the projections are the coordinates of the
emitter, and `dist` is their Euclidean norm. -/
theorem runLocals_origin_proj {P : Type} (s : Source3D P) :
    (s.runLocals listenerAtOrigin).x0 = s.getPosition 0 ∧
      (s.runLocals listenerAtOrigin).y0 = s.getPosition 1 ∧
      (s.runLocals listenerAtOrigin).z0 = s.getPosition 2 ∧
      (s.runLocals listenerAtOrigin).dist =
        Real.sqrt (s.getPosition 0 * s.getPosition 0 + s.getPosition 1 * s.getPosition 1 +
          s.getPosition 2 * s.getPosition 2) := by
  obtain ⟨hat, hright, hup⟩ := runLocals_origin_basis s
  have hpos : (s.runLocals listenerAtOrigin).pos =
      ⟨s.getPosition 0, s.getPosition 1, s.getPosition 2⟩ := by
    have h : (s.runLocals listenerAtOrigin).pos =
        ⟨s.position 0 - 0, s.position 1 - 0, s.position 2 - 0⟩ := rfl
    rw [h, sub_zero, sub_zero, sub_zero]
    rfl
  have hx : (s.runLocals listenerAtOrigin).x0 =
      dotProduct (s.runLocals listenerAtOrigin).right (s.runLocals listenerAtOrigin).pos := rfl
  have hy : (s.runLocals listenerAtOrigin).y0 =
      dotProduct (s.runLocals listenerAtOrigin).«at» (s.runLocals listenerAtOrigin).pos := rfl
  have hz : (s.runLocals listenerAtOrigin).z0 =
      dotProduct (s.runLocals listenerAtOrigin).up (s.runLocals listenerAtOrigin).pos := rfl
  have hd : (s.runLocals listenerAtOrigin).dist =
      magnitude (s.runLocals listenerAtOrigin).pos := rfl
  rw [hx, hy, hz, hd, hat, hright, hup, hpos]
  refine ⟨?_, ?_, ?_, ?_⟩ <;> simp [dotProduct, magnitude]

/-- For the listener at the origin and an emitter at distance `d > 0` along the unit
direction `(a, b, c)`, `run` finds `dist = d` and the direction `(a, b, c)`. -/
theorem runLocals_origin_direction {P : Type} (s : Source3D P) (d a b c : ℝ) (hd : 0 < d)
    (hunit : a * a + b * b + c * c = 1)
    (h0 : s.getPosition 0 = a * d) (h1 : s.getPosition 1 = b * d)
    (h2 : s.getPosition 2 = c * d) :
    (s.runLocals listenerAtOrigin).dist = d ∧ (s.runLocals listenerAtOrigin).x = a ∧
      (s.runLocals listenerAtOrigin).y = b ∧ (s.runLocals listenerAtOrigin).z = c := by
  obtain ⟨hx0, hy0, hz0, hdist⟩ := runLocals_origin_proj s
  have hsq : s.getPosition 0 * s.getPosition 0 + s.getPosition 1 * s.getPosition 1 +
      s.getPosition 2 * s.getPosition 2 = d * d := by
    rw [h0, h1, h2]
    linear_combination (d * d) * hunit
  rw [hsq, Real.sqrt_mul_self hd.le] at hdist
  have hne : (s.runLocals listenerAtOrigin).dist ≠ 0 := by
    rw [hdist]
    exact hd.ne'
  have hx : (s.runLocals listenerAtOrigin).x =
      if (s.runLocals listenerAtOrigin).dist = 0 then 0
      else (s.runLocals listenerAtOrigin).x0 / (s.runLocals listenerAtOrigin).dist := rfl
  have hy : (s.runLocals listenerAtOrigin).y =
      if (s.runLocals listenerAtOrigin).dist = 0 then 1
      else (s.runLocals listenerAtOrigin).y0 / (s.runLocals listenerAtOrigin).dist := rfl
  have hz : (s.runLocals listenerAtOrigin).z =
      if (s.runLocals listenerAtOrigin).dist = 0 then 0
      else (s.runLocals listenerAtOrigin).z0 / (s.runLocals listenerAtOrigin).dist := rfl
  rw [if_neg hne] at hx hy hz
  rw [hx0, h0, hdist] at hx
  rw [hy0, h1, hdist] at hy
  rw [hz0, h2, hdist] at hz
  refine ⟨hdist, ?_, ?_, ?_⟩
  · rw [hx]
    field_simp
  · rw [hy]
    field_simp
  · rw [hz]
    field_simp

theorem run_publishes {P : Type} (mulFromDistanceParams : DistanceParams P → ℝ)
    (s : Source3D P) (ctx : Context) :
    ∃ s' : Source3D P, s.run mulFromDistanceParams ctx = some s' ∧
      s'.azimuth = clamp (s.runLocals ctx).azimuth 0 360 ∧
      s'.elevation = (s.runLocals ctx).elevation :=
  ⟨_, run_eq_some mulFromDistanceParams s ctx, rfl, rfl⟩

/-- The azimuth after `fmod` for the four directions in the horizontal plane and for
the pole, where `x = y = 0`. -/
theorem runLocals_azimuth_of_direction {P : Type} (s : Source3D P) (ctx : Context) :
    ((s.runLocals ctx).x = 0 → (s.runLocals ctx).y = 1 → (s.runLocals ctx).azimuth = 0) ∧
      ((s.runLocals ctx).x = 1 → (s.runLocals ctx).y = 0 → (s.runLocals ctx).azimuth = 90) ∧
      ((s.runLocals ctx).x = 0 → (s.runLocals ctx).y = -1 →
        (s.runLocals ctx).azimuth = 180) ∧
      ((s.runLocals ctx).x = -1 → (s.runLocals ctx).y = 0 →
        (s.runLocals ctx).azimuth = 270) ∧
      ((s.runLocals ctx).x = 0 → (s.runLocals ctx).y = 0 → (s.runLocals ctx).azimuth = 0) := by
  refine ⟨?_, ?_, ?_, ?_, ?_⟩
  · intro hx hy
    rw [runLocals_azimuth_eq, hx, hy, atan2_zero_one, zero_mul, zero_div, zero_add]
    exact fmod_360_360
  · intro hx hy
    rw [runLocals_azimuth_eq, hx, hy, atan2_one_zero, degrees_half_pi,
      fmod_of_ge _ (by norm_num) (by norm_num)]
    norm_num
  · intro hx hy
    rw [runLocals_azimuth_eq, hx, hy, atan2_zero_neg_one, degrees_pi,
      fmod_of_ge _ (by norm_num) (by norm_num)]
    norm_num
  · intro hx hy
    rw [runLocals_azimuth_eq, hx, hy, atan2_neg_one_zero, degrees_neg_half_pi,
      fmod_of_lt _ (by norm_num) (by norm_num)]
    norm_num
  · intro hx hy
    rw [runLocals_azimuth_eq, hx, hy, atan2_zero_zero, zero_mul, zero_div, zero_add]
    exact fmod_360_360

/-- C12: for every `d > 0`, with the listener at the origin with `at = (0, 1, 0)` and
`up = (0, 0, 1)` and the emitter at `(d, 0, 0)`, `run` computes a positive right-axis
component (`d` before and 1 after the division by `dist`), a forward-axis component
0, and publishes azimuth 90 and elevation 0. -/
theorem run_emitter_right {P : Type} (mulFromDistanceParams : DistanceParams P → ℝ)
    (s : Source3D P) (d : ℝ) (hd : 0 < d) (hpos : s.getPosition = ![d, 0, 0]) :
    (0 < (s.runLocals listenerAtOrigin).x0 ∧ (s.runLocals listenerAtOrigin).y0 = 0 ∧
        0 < (s.runLocals listenerAtOrigin).x ∧ (s.runLocals listenerAtOrigin).y = 0) ∧
      ∃ s' : Source3D P, s.run mulFromDistanceParams listenerAtOrigin = some s' ∧
        s'.azimuth = 90 ∧ s'.elevation = 0 := by
  have h0 : s.getPosition 0 = d := by rw [hpos]; rfl
  have h1 : s.getPosition 1 = 0 := by rw [hpos]; rfl
  have h2 : s.getPosition 2 = 0 := by rw [hpos]; rfl
  obtain ⟨hx0, hy0, _, _⟩ := runLocals_origin_proj s
  obtain ⟨_, hx, hy, hz⟩ := runLocals_origin_direction s d 1 0 0 hd (by norm_num)
    (by rw [h0, one_mul]) (by rw [h1, zero_mul]) (by rw [h2, zero_mul])
  have haz := (runLocals_azimuth_of_direction s listenerAtOrigin).2.1 hx hy
  have hel : (s.runLocals listenerAtOrigin).elevation = 0 := by
    rw [runLocals_elevation_eq, hx, hy, hz]
    norm_num
    rw [atan2_zero_one]
    norm_num
    exact clamp_of_mem 0 (-90) 90 (by norm_num) (by norm_num)
  obtain ⟨s', hrun, hpaz, hpel⟩ := run_publishes mulFromDistanceParams s listenerAtOrigin
  refine ⟨⟨?_, ?_, ?_, hy⟩, s', hrun, ?_, ?_⟩
  · rw [hx0, h0]
    exact hd
  · rw [hy0, h1]
  · rw [hx]
    exact one_pos
  · rw [hpaz, haz]
    exact clamp_of_mem 90 0 360 (by norm_num) (by norm_num)
  · rw [hpel, hel]

theorem run_emitter_right_witness :
    (0 : ℝ) < 1 ∧ (sourceAt ![1, 0, 0]).getPosition = ![1, 0, 0] ∧
      (0 < ((sourceAt ![1, 0, 0]).runLocals listenerAtOrigin).x0 ∧
        ((sourceAt ![1, 0, 0]).runLocals listenerAtOrigin).y0 = 0 ∧
        0 < ((sourceAt ![1, 0, 0]).runLocals listenerAtOrigin).x ∧
        ((sourceAt ![1, 0, 0]).runLocals listenerAtOrigin).y = 0) ∧
      ∃ s' : Source3D Unit, (sourceAt ![1, 0, 0]).run unitGain listenerAtOrigin = some s' ∧
        s'.azimuth = 90 ∧ s'.elevation = 0 :=
  ⟨one_pos, rfl, run_emitter_right unitGain (sourceAt ![1, 0, 0]) 1 one_pos rfl⟩

/-- C13: for every `d > 0`, with the listener at the origin with `at = (0, 1, 0)` and
`up = (0, 0, 1)` and the emitter directly above at `(0, 0, d)`, `run` publishes
elevation 90 and a defined azimuth in `[0, 360)`: it is 0, from `atan2(0, 0) = 0`. -/
theorem run_emitter_above {P : Type} (mulFromDistanceParams : DistanceParams P → ℝ)
    (s : Source3D P) (d : ℝ) (hd : 0 < d) (hpos : s.getPosition = ![0, 0, d]) :
    ∃ s' : Source3D P, s.run mulFromDistanceParams listenerAtOrigin = some s' ∧
      s'.elevation = 90 ∧ s'.azimuth = 0 ∧ 0 ≤ s'.azimuth ∧ s'.azimuth < 360 := by
  have h0 : s.getPosition 0 = 0 := by rw [hpos]; rfl
  have h1 : s.getPosition 1 = 0 := by rw [hpos]; rfl
  have h2 : s.getPosition 2 = d := by rw [hpos]; rfl
  obtain ⟨_, hx, hy, hz⟩ := runLocals_origin_direction s d 0 0 1 hd (by norm_num)
    (by rw [h0, zero_mul]) (by rw [h1, zero_mul]) (by rw [h2, one_mul])
  have haz := (runLocals_azimuth_of_direction s listenerAtOrigin).2.2.2.2 hx hy
  have hel : (s.runLocals listenerAtOrigin).elevation = 90 := by
    rw [runLocals_elevation_eq, hx, hy, hz]
    norm_num
    rw [atan2_one_zero, degrees_half_pi]
    exact clamp_of_mem 90 (-90) 90 (by norm_num) (by norm_num)
  obtain ⟨s', hrun, hpaz, hpel⟩ := run_publishes mulFromDistanceParams s listenerAtOrigin
  have hfinal : s'.azimuth = 0 := by
    rw [hpaz, haz]
    exact clamp_of_mem 0 0 360 (le_refl 0) (by norm_num)
  refine ⟨s', hrun, ?_, hfinal, ?_, ?_⟩
  · rw [hpel, hel]
  · rw [hfinal]
  · rw [hfinal]
    norm_num

theorem run_emitter_above_witness :
    (0 : ℝ) < 1 ∧ (sourceAt ![0, 0, 1]).getPosition = ![0, 0, 1] ∧
      ∃ s' : Source3D Unit, (sourceAt ![0, 0, 1]).run unitGain listenerAtOrigin = some s' ∧
        s'.elevation = 90 ∧ s'.azimuth = 0 ∧ 0 ≤ s'.azimuth ∧ s'.azimuth < 360 :=
  ⟨one_pos, rfl, run_emitter_above unitGain (sourceAt ![0, 0, 1]) 1 one_pos rfl⟩

/-- C16: azimuth is measured clockwise from forward and a negative `atan2` result
wraps upward by 360. For every `d > 0`, with the listener at the origin with
`at = (0, 1, 0)` and `up = (0, 0, 1)`, an emitter straight ahead at `(0, d, 0)` gets
azimuth 0, an emitter behind at `(0, -d, 0)` gets azimuth 180, and an emitter to the
left at `(-d, 0, 0)` gets azimuth 270. -/
theorem run_azimuth_clockwise {P : Type} (mulFromDistanceParams : DistanceParams P → ℝ)
    (s : Source3D P) (d : ℝ) (hd : 0 < d) :
    (s.getPosition = ![0, d, 0] →
        ∃ s' : Source3D P, s.run mulFromDistanceParams listenerAtOrigin = some s' ∧
          s'.azimuth = 0) ∧
      (s.getPosition = ![0, -d, 0] →
        ∃ s' : Source3D P, s.run mulFromDistanceParams listenerAtOrigin = some s' ∧
          s'.azimuth = 180) ∧
      (s.getPosition = ![-d, 0, 0] →
        ∃ s' : Source3D P, s.run mulFromDistanceParams listenerAtOrigin = some s' ∧
          s'.azimuth = 270) := by
  obtain ⟨s', hrun, hpaz, _⟩ := run_publishes mulFromDistanceParams s listenerAtOrigin
  refine ⟨?_, ?_, ?_⟩
  · intro hpos
    have h0 : s.getPosition 0 = 0 := by rw [hpos]; rfl
    have h1 : s.getPosition 1 = d := by rw [hpos]; rfl
    have h2 : s.getPosition 2 = 0 := by rw [hpos]; rfl
    obtain ⟨_, hx, hy, _⟩ := runLocals_origin_direction s d 0 1 0 hd (by norm_num)
      (by rw [h0, zero_mul]) (by rw [h1, one_mul]) (by rw [h2, zero_mul])
    have haz := (runLocals_azimuth_of_direction s listenerAtOrigin).1 hx hy
    refine ⟨s', hrun, ?_⟩
    rw [hpaz, haz]
    exact clamp_of_mem 0 0 360 (le_refl 0) (by norm_num)
  · intro hpos
    have h0 : s.getPosition 0 = 0 := by rw [hpos]; rfl
    have h1 : s.getPosition 1 = -d := by rw [hpos]; rfl
    have h2 : s.getPosition 2 = 0 := by rw [hpos]; rfl
    obtain ⟨_, hx, hy, _⟩ := runLocals_origin_direction s d 0 (-1) 0 hd (by norm_num)
      (by rw [h0, zero_mul]) (by rw [h1, neg_one_mul]) (by rw [h2, zero_mul])
    have haz := (runLocals_azimuth_of_direction s listenerAtOrigin).2.2.1 hx hy
    refine ⟨s', hrun, ?_⟩
    rw [hpaz, haz]
    exact clamp_of_mem 180 0 360 (by norm_num) (by norm_num)
  · intro hpos
    have h0 : s.getPosition 0 = -d := by rw [hpos]; rfl
    have h1 : s.getPosition 1 = 0 := by rw [hpos]; rfl
    have h2 : s.getPosition 2 = 0 := by rw [hpos]; rfl
    obtain ⟨_, hx, hy, _⟩ := runLocals_origin_direction s d (-1) 0 0 hd (by norm_num)
      (by rw [h0, neg_one_mul]) (by rw [h1, zero_mul]) (by rw [h2, zero_mul])
    have haz := (runLocals_azimuth_of_direction s listenerAtOrigin).2.2.2.1 hx hy
    refine ⟨s', hrun, ?_⟩
    rw [hpaz, haz]
    exact clamp_of_mem 270 0 360 (by norm_num) (by norm_num)

theorem run_azimuth_clockwise_witness :
    (0 : ℝ) < 1 ∧
      (∃ s' : Source3D Unit, (sourceAt ![0, 1, 0]).run unitGain listenerAtOrigin = some s' ∧
        s'.azimuth = 0) ∧
      (∃ s' : Source3D Unit, (sourceAt ![0, -1, 0]).run unitGain listenerAtOrigin = some s' ∧
        s'.azimuth = 180) ∧
      (∃ s' : Source3D Unit, (sourceAt ![-1, 0, 0]).run unitGain listenerAtOrigin = some s' ∧
        s'.azimuth = 270) :=
  ⟨one_pos,
    (run_azimuth_clockwise unitGain (sourceAt ![0, 1, 0]) 1 one_pos).1 rfl,
    (run_azimuth_clockwise unitGain (sourceAt ![0, -1, 0]) 1 one_pos).2.1 rfl,
    (run_azimuth_clockwise unitGain (sourceAt ![-1, 0, 0]) 1 one_pos).2.2 rfl⟩

/-! ### The basis built by `run` -/

theorem dotProduct_self_nonneg (a : Vec3d) : 0 ≤ dotProduct a a := by
  unfold dotProduct
  nlinarith [mul_self_nonneg a.x, mul_self_nonneg a.y, mul_self_nonneg a.z]

theorem dotProduct_self_pos (a : Vec3d) (h : a ≠ ⟨0, 0, 0⟩) : 0 < dotProduct a a := by
  rcases lt_or_eq_of_le (dotProduct_self_nonneg a) with hlt | heq
  · exact hlt
  · exfalso
    apply h
    unfold dotProduct at heq
    have hx : a.x = 0 := by
      nlinarith [mul_self_nonneg a.x, mul_self_nonneg a.y, mul_self_nonneg a.z]
    have hy : a.y = 0 := by
      nlinarith [mul_self_nonneg a.x, mul_self_nonneg a.y, mul_self_nonneg a.z]
    have hz : a.z = 0 := by
      nlinarith [mul_self_nonneg a.x, mul_self_nonneg a.y, mul_self_nonneg a.z]
    ext <;> assumption

theorem magnitude_mul_self (a : Vec3d) : magnitude a * magnitude a = dotProduct a a :=
  Real.mul_self_sqrt (dotProduct_self_nonneg a)

theorem magnitude_pos (a : Vec3d) (h : a ≠ ⟨0, 0, 0⟩) : 0 < magnitude a :=
  Real.sqrt_pos.mpr (dotProduct_self_pos a h)

/-- A vector pair with a zero cross product is parallel. -/
theorem parallel_of_crossProduct_zero (a b : Vec3d) (h : crossProduct a b = ⟨0, 0, 0⟩) :
    Parallel a b := by
  have hx : a.y * b.z - a.z * b.y = 0 := congrArg Vec3d.x h
  have hy : a.z * b.x - a.x * b.z = 0 := congrArg Vec3d.y h
  have hz : a.x * b.y - a.y * b.x = 0 := congrArg Vec3d.z h
  by_cases h1 : a.x = 0
  · by_cases h2 : a.y = 0
    · by_cases h3 : a.z = 0
      · exact ⟨0, Or.inr ⟨by rw [h1, zero_mul], by rw [h2, zero_mul], by rw [h3, zero_mul]⟩⟩
      · refine ⟨b.z / a.z, Or.inl ⟨?_, ?_, ?_⟩⟩
        · field_simp
          linear_combination hy
        · field_simp
          linear_combination -hx
        · field_simp
    · refine ⟨b.y / a.y, Or.inl ⟨?_, ?_, ?_⟩⟩
      · field_simp
        linear_combination -hz
      · field_simp
      · field_simp
        linear_combination hx
  · refine ⟨b.x / a.x, Or.inl ⟨?_, ?_, ?_⟩⟩
    · field_simp
    · field_simp
      linear_combination hz
    · field_simp
      linear_combination -hy

theorem dotProduct_normalize_self (a : Vec3d) (h : a ≠ ⟨0, 0, 0⟩) :
    dotProduct (normalize a) (normalize a) = 1 := by
  have hm := magnitude_pos a h
  have hsq := magnitude_mul_self a
  have hne : magnitude a ≠ 0 := hm.ne'
  unfold dotProduct at hsq
  unfold normalize dotProduct
  simp only []
  field_simp
  linear_combination -hsq

theorem dotProduct_normalize_cross (a b : Vec3d) :
    dotProduct (normalize a) (normalize (crossProduct a b)) = 0 := by
  unfold normalize dotProduct
  simp only []
  have h : a.x * (crossProduct a b).x + a.y * (crossProduct a b).y +
      a.z * (crossProduct a b).z = 0 := by
    simp only [crossProduct]
    ring
  have h2 : a.x / magnitude a * ((crossProduct a b).x / magnitude (crossProduct a b)) +
      a.y / magnitude a * ((crossProduct a b).y / magnitude (crossProduct a b)) +
      a.z / magnitude a * ((crossProduct a b).z / magnitude (crossProduct a b)) =
      (a.x * (crossProduct a b).x + a.y * (crossProduct a b).y +
        a.z * (crossProduct a b).z) / (magnitude a * magnitude (crossProduct a b)) := by
    ring
  rw [h2, h, zero_div]

theorem dotProduct_comm (a b : Vec3d) : dotProduct a b = dotProduct b a := by
  unfold dotProduct
  ring

theorem dotProduct_cross_left (r t : Vec3d) : dotProduct r (crossProduct r t) = 0 := by
  simp only [dotProduct, crossProduct]
  ring

theorem dotProduct_cross_right (r t : Vec3d) : dotProduct t (crossProduct r t) = 0 := by
  simp only [dotProduct, crossProduct]
  ring

/-- The identity of Lagrange for the cross product. -/
theorem dotProduct_cross_self (r t : Vec3d) :
    dotProduct (crossProduct r t) (crossProduct r t) =
      dotProduct r r * dotProduct t t - dotProduct r t * dotProduct r t := by
  simp only [dotProduct, crossProduct]
  ring

/-- The projections on two orthogonal unit vectors and on their cross product have
squares that add up to the squared length of the projected vector. -/
theorem projections_sum_sq (r t p : Vec3d) (hr : dotProduct r r = 1)
    (ht : dotProduct t t = 1) (hrt : dotProduct r t = 0) :
    dotProduct r p * dotProduct r p + dotProduct t p * dotProduct t p +
        dotProduct (crossProduct r t) p * dotProduct (crossProduct r t) p =
      dotProduct p p := by
  simp only [dotProduct, crossProduct] at hr ht hrt ⊢
  linear_combination
    ((p.x * p.x + p.y * p.y + p.z * p.z) * (t.x * t.x + t.y * t.y + t.z * t.z) -
        (t.x * p.x + t.y * p.y + t.z * p.z) * (t.x * p.x + t.y * p.y + t.z * p.z)) * hr +
      ((p.x * p.x + p.y * p.y + p.z * p.z) -
        (r.x * p.x + r.y * p.y + r.z * p.z) * (r.x * p.x + r.y * p.y + r.z * p.z)) * ht +
      (2 * (t.x * p.x + t.y * p.y + t.z * p.z) * (r.x * p.x + r.y * p.y + r.z * p.z) -
        (p.x * p.x + p.y * p.y + p.z * p.z) * (r.x * t.x + r.y * t.y + r.z * t.z)) * hrt

theorem listenerTilted_nonDegenerate : NonDegenerate listenerTilted.getOrientation := by
  have ha : orientationAt listenerTilted.getOrientation = ⟨0, 1, 0⟩ := rfl
  have hu : orientationUp listenerTilted.getOrientation = ⟨0, 1, 1⟩ := rfl
  unfold NonDegenerate
  rw [ha, hu]
  refine ⟨?_, ?_, ?_⟩
  · intro h
    have h1 := congrArg Vec3d.y h
    simp at h1
  · intro h
    have h1 := congrArg Vec3d.z h
    simp at h1
  · rintro ⟨k, ⟨_, _, h⟩ | ⟨_, _, h⟩⟩
    · simp at h
    · simp only [mul_one] at h
      rename_i h2
      rw [← h] at h2
      simp at h2

/-- C19: for every listener orientation whose `at` and `up` are non-zero and not
parallel (`up` need not be perpendicular to `at`), the vectors `at`, `right`, `up`
built in `run` are an orthonormal basis, so the projections satisfy
`x*x + y*y + z*z = dist*dist` before the `if (dist == 0)` statement and
`x*x + y*y + z*z = 1` after the division by `dist` when `dist > 0`. -/
theorem run_basis_orthonormal {P : Type} (s : Source3D P) (ctx : Context)
    (h : NonDegenerate ctx.getOrientation) :
    (dotProduct (s.runLocals ctx).«at» (s.runLocals ctx).«at» = 1 ∧
        dotProduct (s.runLocals ctx).right (s.runLocals ctx).right = 1 ∧
        dotProduct (s.runLocals ctx).up (s.runLocals ctx).up = 1 ∧
        dotProduct (s.runLocals ctx).«at» (s.runLocals ctx).right = 0 ∧
        dotProduct (s.runLocals ctx).«at» (s.runLocals ctx).up = 0 ∧
        dotProduct (s.runLocals ctx).right (s.runLocals ctx).up = 0) ∧
      (s.runLocals ctx).x0 * (s.runLocals ctx).x0 + (s.runLocals ctx).y0 * (s.runLocals ctx).y0 +
          (s.runLocals ctx).z0 * (s.runLocals ctx).z0 =
        (s.runLocals ctx).dist * (s.runLocals ctx).dist ∧
      (0 < (s.runLocals ctx).dist →
        (s.runLocals ctx).x * (s.runLocals ctx).x + (s.runLocals ctx).y * (s.runLocals ctx).y +
          (s.runLocals ctx).z * (s.runLocals ctx).z = 1) := by
  obtain ⟨hane, _, hnp⟩ := h
  have hcne : crossProduct (orientationAt ctx.getOrientation)
      (orientationUp ctx.getOrientation) ≠ ⟨0, 0, 0⟩ :=
    fun hc => hnp (parallel_of_crossProduct_zero _ _ hc)
  have hat : (s.runLocals ctx).«at» = normalize (orientationAt ctx.getOrientation) := rfl
  have hright : (s.runLocals ctx).right =
      normalize (crossProduct (orientationAt ctx.getOrientation)
        (orientationUp ctx.getOrientation)) := rfl
  have hup : (s.runLocals ctx).up =
      crossProduct (s.runLocals ctx).right (s.runLocals ctx).«at» := rfl
  have hx0 : (s.runLocals ctx).x0 =
      dotProduct (s.runLocals ctx).right (s.runLocals ctx).pos := rfl
  have hy0 : (s.runLocals ctx).y0 =
      dotProduct (s.runLocals ctx).«at» (s.runLocals ctx).pos := rfl
  have hz0 : (s.runLocals ctx).z0 =
      dotProduct (s.runLocals ctx).up (s.runLocals ctx).pos := rfl
  have hdist : (s.runLocals ctx).dist = magnitude (s.runLocals ctx).pos := rfl
  have htt : dotProduct (s.runLocals ctx).«at» (s.runLocals ctx).«at» = 1 := by
    rw [hat]
    exact dotProduct_normalize_self _ hane
  have hrr : dotProduct (s.runLocals ctx).right (s.runLocals ctx).right = 1 := by
    rw [hright]
    exact dotProduct_normalize_self _ hcne
  have htr : dotProduct (s.runLocals ctx).«at» (s.runLocals ctx).right = 0 := by
    rw [hat, hright]
    exact dotProduct_normalize_cross _ _
  have hrt : dotProduct (s.runLocals ctx).right (s.runLocals ctx).«at» = 0 := by
    rw [dotProduct_comm]
    exact htr
  have huu : dotProduct (s.runLocals ctx).up (s.runLocals ctx).up = 1 := by
    rw [hup, dotProduct_cross_self, hrr, htt, hrt]
    norm_num
  have hsum : (s.runLocals ctx).x0 * (s.runLocals ctx).x0 +
      (s.runLocals ctx).y0 * (s.runLocals ctx).y0 +
      (s.runLocals ctx).z0 * (s.runLocals ctx).z0 =
      (s.runLocals ctx).dist * (s.runLocals ctx).dist := by
    rw [hx0, hy0, hz0, hup, hdist, magnitude_mul_self]
    exact projections_sum_sq _ _ _ hrr htt hrt
  refine ⟨⟨htt, hrr, huu, htr, ?_, ?_⟩, hsum, ?_⟩
  · rw [hup]
    exact dotProduct_cross_right _ _
  · rw [hup]
    exact dotProduct_cross_left _ _
  · intro hpos
    have hne : (s.runLocals ctx).dist ≠ 0 := hpos.ne'
    have hx : (s.runLocals ctx).x =
        if (s.runLocals ctx).dist = 0 then 0
        else (s.runLocals ctx).x0 / (s.runLocals ctx).dist := rfl
    have hy : (s.runLocals ctx).y =
        if (s.runLocals ctx).dist = 0 then 1
        else (s.runLocals ctx).y0 / (s.runLocals ctx).dist := rfl
    have hz : (s.runLocals ctx).z =
        if (s.runLocals ctx).dist = 0 then 0
        else (s.runLocals ctx).z0 / (s.runLocals ctx).dist := rfl
    rw [hx, hy, hz, if_neg hne, if_neg hne, if_neg hne]
    field_simp
    linear_combination hsum

theorem tilted_dist_pos : 0 < ((sourceAt ![1, 2, 3]).runLocals listenerTilted).dist := by
  have hd : ((sourceAt ![1, 2, 3]).runLocals listenerTilted).dist =
      magnitude ⟨1 - 0, 2 - 0, 3 - 0⟩ := rfl
  rw [hd]
  apply magnitude_pos
  intro h
  have h1 := congrArg Vec3d.x h
  simp at h1

theorem run_basis_orthonormal_witness :
    NonDegenerate listenerTilted.getOrientation ∧
      0 < ((sourceAt ![1, 2, 3]).runLocals listenerTilted).dist ∧
      (dotProduct ((sourceAt ![1, 2, 3]).runLocals listenerTilted).«at»
            ((sourceAt ![1, 2, 3]).runLocals listenerTilted).«at» = 1 ∧
          dotProduct ((sourceAt ![1, 2, 3]).runLocals listenerTilted).right
            ((sourceAt ![1, 2, 3]).runLocals listenerTilted).right = 1 ∧
          dotProduct ((sourceAt ![1, 2, 3]).runLocals listenerTilted).up
            ((sourceAt ![1, 2, 3]).runLocals listenerTilted).up = 1 ∧
          dotProduct ((sourceAt ![1, 2, 3]).runLocals listenerTilted).«at»
            ((sourceAt ![1, 2, 3]).runLocals listenerTilted).right = 0 ∧
          dotProduct ((sourceAt ![1, 2, 3]).runLocals listenerTilted).«at»
            ((sourceAt ![1, 2, 3]).runLocals listenerTilted).up = 0 ∧
          dotProduct ((sourceAt ![1, 2, 3]).runLocals listenerTilted).right
            ((sourceAt ![1, 2, 3]).runLocals listenerTilted).up = 0) ∧
        ((sourceAt ![1, 2, 3]).runLocals listenerTilted).x0 *
              ((sourceAt ![1, 2, 3]).runLocals listenerTilted).x0 +
            ((sourceAt ![1, 2, 3]).runLocals listenerTilted).y0 *
              ((sourceAt ![1, 2, 3]).runLocals listenerTilted).y0 +
            ((sourceAt ![1, 2, 3]).runLocals listenerTilted).z0 *
              ((sourceAt ![1, 2, 3]).runLocals listenerTilted).z0 =
          ((sourceAt ![1, 2, 3]).runLocals listenerTilted).dist *
            ((sourceAt ![1, 2, 3]).runLocals listenerTilted).dist ∧
        ((sourceAt ![1, 2, 3]).runLocals listenerTilted).x *
              ((sourceAt ![1, 2, 3]).runLocals listenerTilted).x +
            ((sourceAt ![1, 2, 3]).runLocals listenerTilted).y *
              ((sourceAt ![1, 2, 3]).runLocals listenerTilted).y +
            ((sourceAt ![1, 2, 3]).runLocals listenerTilted).z *
              ((sourceAt ![1, 2, 3]).runLocals listenerTilted).z = 1 :=
  ⟨listenerTilted_nonDegenerate, tilted_dist_pos,
    (run_basis_orthonormal (sourceAt ![1, 2, 3]) listenerTilted
      listenerTilted_nonDegenerate).1,
    (run_basis_orthonormal (sourceAt ![1, 2, 3]) listenerTilted
      listenerTilted_nonDegenerate).2.1,
    (run_basis_orthonormal (sourceAt ![1, 2, 3]) listenerTilted
      listenerTilted_nonDegenerate).2.2 tilted_dist_pos⟩

end synthizer
